import Mathlib

/-!
Verification of the token codec and the two token policies of
`dmutils/email.py` (generate_token, decode_token, parse_fernet_timestamp,
decode_password_reset_token, decode_invitation_token).

The embedding is shallow:
* bytes are lists of naturals (`Bytes`);
* the JSON payloads carried by tokens are ordered string-keyed mappings
  (`Payload`), and `json.dumps` / `json.loads` are modelled by the concrete
  injective serializer `jsonDumps` with decoder `jsonLoads`; like the real
  `json` module (which escapes control characters on output and rejects raw
  control characters inside strings), the encoder never emits a NUL byte and
  the decoder rejects any input containing a NUL byte;
* `cryptography.fernet.Fernet` is modelled symbolically: a Fernet token is
  its MAC-covered byte sequence (version byte, timestamp, IV, ciphertext)
  paired with its HMAC tag; the HMAC is idealized as the collision-free
  keyed function `hmac`, and AES-CBC is idealized as a cipher whose
  ciphertext field stands for the plaintext (all the claims concern
  integrity, expiry and classification, never confidentiality); `decrypt`
  performs the library's checks in the library's order: version byte,
  ttl expiry, maximum clock skew, signature, then decryption.  The library
  raises the single exception class `InvalidToken` for every failure.
* clock readings (`now`) and the random IV are explicit parameters.
-/

set_option autoImplicit false

namespace DMUtils

/-- Byte strings, modelled as lists of naturals. -/
abbrev Bytes := List Nat

/-- Primitive JSON values occurring in the token payloads of the code
(strings such as email addresses, integers such as supplier codes). -/
inductive JVal where
  | str : String → JVal
  | int : Int → JVal
deriving DecidableEq

/-- A token payload: an ordered mapping from string keys to primitive
values, as produced by `json.dumps` of a dict and recovered by
`json.loads`. -/
abbrev Payload := List (String × JVal)

/-- Serialization of one character: a strictly positive byte. -/
def serChar (c : Char) : Nat := c.toNat + 1

/-- Inverse of `serChar`. -/
def parseChar (n : Nat) : Char := Char.ofNat (n - 1)

/-- Length-prefixed serialization of a string; every emitted byte is
strictly positive. -/
def serString (s : String) : Bytes :=
  (s.data.length + 1) :: s.data.map serChar

/-- Parse a length-prefixed string, returning it with the remaining bytes.
A NUL byte anywhere in the consumed region is rejected, as `json.loads`
rejects raw control characters inside strings. -/
def parseString : Bytes → Option (String × Bytes)
  | [] => none
  | n :: rest =>
    if n = 0 then none
    else
      let len := n - 1
      if rest.length < len then none
      else if 0 ∈ rest.take len then none
      else some (⟨(rest.take len).map parseChar⟩, rest.drop len)

/-- Serialization of a primitive value; every emitted byte is strictly
positive. -/
def serJVal : JVal → Bytes
  | .str s => 1 :: serString s
  | .int n => if 0 ≤ n then [2, n.toNat + 1] else [3, (-n).toNat + 1]

/-- Parse a primitive value, returning it with the remaining bytes. -/
def parseJVal : Bytes → Option (JVal × Bytes)
  | 1 :: rest => (parseString rest).map fun p => (.str p.1, p.2)
  | 2 :: m :: rest => if m = 0 then none else some (.int ((m - 1 : Nat) : Int), rest)
  | 3 :: m :: rest => if m = 0 then none else some (.int (-((m - 1 : Nat) : Int)), rest)
  | _ => none

/-- Serialization of one key/value entry. -/
def serEntry (e : String × JVal) : Bytes := serString e.1 ++ serJVal e.2

/-- Model of `json.dumps`: entry count followed by the serialized
entries. -/
def jsonDumps (p : Payload) : Bytes :=
  (p.length + 1) :: p.flatMap serEntry

/-- Parse exactly `n` entries, requiring the input to be fully consumed
(`json.loads` rejects trailing data). -/
def parseEntries : Nat → Bytes → Option Payload
  | 0, [] => some []
  | 0, _ :: _ => none
  | n + 1, b => do
    let (k, r₁) ← parseString b
    let (v, r₂) ← parseJVal r₁
    let tail ← parseEntries n r₂
    pure ((k, v) :: tail)

/-- Model of `json.loads`: fallible inverse of `jsonDumps`. -/
def jsonLoads : Bytes → Option Payload
  | [] => none
  | n :: rest => if n = 0 then none else parseEntries (n - 1) rest

theorem parseChar_serChar (c : Char) : parseChar (serChar c) = c := by
  simp [parseChar, serChar, Char.ofNat_toNat]

theorem serChar_pos (c : Char) : serChar c ≠ 0 := by
  simp [serChar]

theorem parseString_serString (s : String) (r : Bytes) :
    parseString (serString s ++ r) = some (s, r) := by
  have hmap : (s.data.map serChar).map parseChar = s.data := by
    induction s.data with
    | nil => rfl
    | cons c t ih => simp [parseChar_serChar, ih]
  have htake : ((s.data.map serChar) ++ r).take s.data.length = s.data.map serChar := by
    rw [List.take_append_of_le_length (by simp)]
    exact List.take_of_length_le (by simp)
  have hdrop : ((s.data.map serChar) ++ r).drop s.data.length = r := by
    rw [List.drop_append_of_le_length (by simp)]
    simp [List.drop_of_length_le (le_refl _)]
  have hnul : ¬ (0 ∈ ((s.data.map serChar) ++ r).take s.data.length) := by
    rw [htake]
    intro hmem
    rcases List.mem_map.mp hmem with ⟨c, -, hc⟩
    exact serChar_pos c hc
  simp only [serString, List.cons_append, parseString, Nat.add_sub_cancel]
  rw [if_neg (Nat.succ_ne_zero _)]
  rw [if_neg (by simp [Nat.not_lt])]
  rw [if_neg hnul, htake, hdrop, hmap]

theorem parseJVal_serJVal (v : JVal) (r : Bytes) :
    parseJVal (serJVal v ++ r) = some (v, r) := by
  cases v with
  | str s => simp [serJVal, parseJVal, parseString_serString]
  | int n =>
    by_cases h : 0 ≤ n
    · simp only [serJVal, if_pos h, List.cons_append, List.nil_append, parseJVal]
      rw [if_neg (Nat.succ_ne_zero _)]
      simp [Int.toNat_of_nonneg h]
    · simp only [serJVal, if_neg h, List.cons_append, List.nil_append, parseJVal]
      rw [if_neg (Nat.succ_ne_zero _)]
      have : (-n).toNat = -n := Int.toNat_of_nonneg (by omega)
      simp only [Nat.add_sub_cancel, Option.some.injEq, Prod.mk.injEq, and_true]
      congr 1
      omega

theorem parseEntries_flatMap (p : Payload) :
    (∀ b, parseEntries 0 b = some p → b = []) ∧
    parseEntries p.length (p.flatMap serEntry) = some p := by
  constructor
  · intro b hb
    cases b with
    | nil => rfl
    | cons x xs => simp [parseEntries] at hb
  · induction p with
    | nil => rfl
    | cons e tl ih =>
      obtain ⟨k, v⟩ := e
      simp only [List.flatMap_cons, List.length_cons, parseEntries, serEntry,
        List.append_assoc, parseString_serString, Option.bind_eq_bind,
        Option.some_bind, parseJVal_serJVal, ih]
      rfl

/-- Round trip of the payload serializer: `json.loads (json.dumps p) = p`
for the string-keyed payloads carried by tokens. -/
theorem jsonLoads_jsonDumps (p : Payload) : jsonLoads (jsonDumps p) = some p := by
  simp only [jsonDumps, jsonLoads]
  rw [if_neg (Nat.succ_ne_zero _)]
  simpa using (parseEntries_flatMap p).2

theorem serString_nonul (s : String) : 0 ∉ serString s := by
  simp only [serString, List.mem_cons]
  rintro (h | h)
  · exact Nat.succ_ne_zero _ h.symm
  · rcases List.mem_map.mp h with ⟨c, -, hc⟩
    exact serChar_pos c hc

theorem serJVal_nonul (v : JVal) : 0 ∉ serJVal v := by
  cases v with
  | str s =>
    simp only [serJVal, List.mem_cons]
    rintro (h | h)
    · exact one_ne_zero h.symm
    · exact serString_nonul s h
  | int n =>
    by_cases h : 0 ≤ n <;> simp [serJVal, h]

/-- Every byte emitted by the payload serializer is nonzero: `json.dumps`
escapes control characters, so serialized payloads never contain a raw NUL
byte. -/
theorem jsonDumps_nonul (p : Payload) : 0 ∉ jsonDumps p := by
  simp only [jsonDumps, List.mem_cons]
  rintro (h | h)
  · exact Nat.succ_ne_zero _ h.symm
  · rcases List.mem_flatMap.mp h with ⟨e, -, he⟩
    rcases List.mem_append.mp he with h2 | h2
    · exact serString_nonul e.1 h2
    · exact serJVal_nonul e.2 h2

theorem parseString_consumed {b r : Bytes} {s : String}
    (h : parseString b = some (s, r)) : ∃ c, b = c ++ r ∧ 0 ∉ c := by
  cases b with
  | nil => simp [parseString] at h
  | cons n rest =>
    simp only [parseString] at h
    by_cases h0 : n = 0
    · simp [h0] at h
    · rw [if_neg h0] at h
      by_cases hlen : rest.length < n - 1
      · rw [if_pos hlen] at h
        simp at h
      · rw [if_neg hlen] at h
        by_cases hz : 0 ∈ rest.take (n - 1)
        · rw [if_pos hz] at h
          simp at h
        · rw [if_neg hz] at h
          refine ⟨n :: rest.take (n - 1), ?_, ?_⟩
          · have hr : r = rest.drop (n - 1) := by
              have := congrArg (fun q => (Option.map Prod.snd q)) h
              simpa using this.symm
            rw [hr]
            simp
          · simp only [List.mem_cons]
            rintro (hc | hc)
            · exact h0 hc.symm
            · exact hz hc

theorem parseJVal_consumed {b r : Bytes} {v : JVal}
    (h : parseJVal b = some (v, r)) : ∃ c, b = c ++ r ∧ 0 ∉ c := by
  match b, h with
  | 1 :: rest, h =>
    simp only [parseJVal, Option.map_eq_some'] at h
    rcases h with ⟨⟨s, r2⟩, hps, hv⟩
    rcases parseString_consumed hps with ⟨c, hc, hcz⟩
    cases hv
    exact ⟨1 :: c, by simp [hc], by
      simp only [List.mem_cons]
      rintro (h1 | h1)
      · exact one_ne_zero h1.symm
      · exact hcz h1⟩
  | 2 :: m :: rest, h =>
    simp only [parseJVal] at h
    by_cases hm : m = 0
    · simp [hm] at h
    · rw [if_neg hm] at h
      refine ⟨[2, m], ?_, ?_⟩
      · have h2 := congrArg (fun q => (Option.map Prod.snd q)) h
        have : r = rest := by simpa using h2.symm
        simp [this]
      · simp only [List.mem_cons]
        rintro (h1 | h1 | h1)
        · omega
        · exact hm h1.symm
        · simp at h1
  | 3 :: m :: rest, h =>
    simp only [parseJVal] at h
    by_cases hm : m = 0
    · simp [hm] at h
    · rw [if_neg hm] at h
      refine ⟨[3, m], ?_, ?_⟩
      · have h2 := congrArg (fun q => (Option.map Prod.snd q)) h
        have : r = rest := by simpa using h2.symm
        simp [this]
      · simp only [List.mem_cons]
        rintro (h1 | h1 | h1)
        · omega
        · exact hm h1.symm
        · simp at h1

/-- Anything `jsonLoads` accepts is NUL-free: the decoder, like strict
`json.loads`, rejects raw NUL bytes everywhere. -/
theorem parseEntries_nonul :
    ∀ (n : Nat) (b : Bytes) (p : Payload), parseEntries n b = some p → 0 ∉ b := by
  intro n
  induction n with
  | zero =>
    intro b p h
    cases b with
    | nil => simp
    | cons x xs => simp [parseEntries] at h
  | succ k ih =>
    intro b p h
    simp only [parseEntries, Option.bind_eq_bind, Option.bind_eq_some] at h
    rcases h with ⟨⟨s, r1⟩, hps, ⟨⟨v, r2⟩, hpv, hrest⟩⟩
    rcases hrest with ⟨tl, hpe, -⟩
    dsimp only at hpv hpe
    rcases parseString_consumed hps with ⟨c1, hb, hc1⟩
    rcases parseJVal_consumed hpv with ⟨c2, hr1, hc2⟩
    have hr2 : 0 ∉ r2 := ih r2 tl hpe
    rw [hb, hr1]
    intro hmem
    rcases List.mem_append.mp hmem with h1 | h1
    · exact hc1 h1
    rcases List.mem_append.mp h1 with h2 | h2
    · exact hc2 h2
    · exact hr2 h2

theorem jsonLoads_nonul {b : Bytes} {p : Payload} (h : jsonLoads b = some p) :
    0 ∉ b := by
  cases b with
  | nil => simp
  | cons n rest =>
    simp only [jsonLoads] at h
    by_cases h0 : n = 0
    · simp [h0] at h
    · rw [if_neg h0] at h
      simp only [List.mem_cons]
      rintro (h1 | h1)
      · exact h0 h1.symm
      · exact parseEntries_nonul (n - 1) rest p h h1

/-- A Fernet token after base64url unframing: the MAC-covered bytes
(`head` = version byte, timestamp, IV, ciphertext) together with the
trailing HMAC tag (a fixed-length field in the real format, so splitting
the token into these two parts is lossless). -/
structure FernetToken where
  head : Bytes
  mac : Bytes
deriving DecidableEq

/-- Idealized HMAC-SHA256 under `key`: a collision-free keyed function
(the symbolic, Dolev-Yao idealization of a MAC — real HMAC satisfies this
up to negligible collision probability). -/
def hmac (key : Nat) (data : Bytes) : Bytes := key :: data

/-- `cryptography.fernet._MAX_CLOCK_SKEW`. -/
def MAX_CLOCK_SKEW : Nat := 60

/-- Model of `Fernet.encrypt` at clock reading `now` with random IV `iv`:
version byte 0x80, the current time, the IV, the ciphertext (idealized:
AES-CBC under a fixed key is a bijection, so the ciphertext field stands
for the plaintext it decrypts to — no claim concerns confidentiality),
and the HMAC over all the preceding bytes. -/
def fernetEncrypt (key now : Nat) (iv pt : Bytes) : FernetToken :=
  ⟨128 :: now :: (iv ++ pt), hmac key (128 :: now :: (iv ++ pt))⟩

/-- Model of `Fernet.decrypt(token, ttl)` at clock reading `now`, with the
library's checks in the library's order: well-formedness (version byte
0x80 and a parseable timestamp), ttl expiry, maximum clock skew, HMAC
verification, then decryption and unpadding.  Every failure raises the
single exception class `InvalidToken`, modelled as `none`. -/
def fernetDecrypt (key ttl now : Nat) (tok : FernetToken) : Option Bytes :=
  match tok.head with
  | v :: t :: rest =>
    if v ≠ 128 then none
    else if t + ttl < now then none
    else if now + MAX_CLOCK_SKEW < t then none
    else if tok.mac ≠ hmac key tok.head then none
    else some (rest.drop 16)
  | _ => none

/-- `dmutils.email.ONE_DAY_IN_SECONDS`. -/
def ONE_DAY_IN_SECONDS : Nat := 86400

/-- `generate_token(data, secret_key, salt)`: serializes `data` to JSON
and Fernet-encrypts `salt` + NUL + `json_data`.  The issuance time `now`
and the random IV drawn inside the library are explicit model
parameters. -/
def generate_token (data : Payload) (secret_key : Nat) (salt : Bytes)
    (now : Nat) (iv : Bytes) : FernetToken :=
  fernetEncrypt secret_key now iv (salt ++ 0 :: jsonDumps data)

/-- The two ways `decode_token` can fail: `invalidToken` models the
`cryptography.fernet.InvalidToken` exception (raised by the library for
every decryption failure and raised explicitly on salt mismatch), and
`valueError` models the `ValueError` family raised by unpacking the
cleartext split and by `json.loads`. -/
inductive DecodeErr where
  | invalidToken
  | valueError
deriving DecidableEq

/-- The split of the cleartext at its first NUL byte performed by
`decode_token`; `none` models the `ValueError` raised by unpacking the
1-split when the cleartext contains no NUL at all. -/
def splitFirstNul : Bytes → Option (Bytes × Bytes)
  | [] => none
  | b :: rest =>
    if b = 0 then some ([], rest)
    else (splitFirstNul rest).map fun p => (b :: p.1, p.2)

/-- `decode_token(token, secret_key, salt, max_age_in_seconds)`: Fernet
decryption with ttl, split of the cleartext at the first NUL into the
embedded salt and the JSON data, exact salt comparison (raising
`InvalidToken` on mismatch), then `json.loads` of the JSON data. -/
def decode_token (token : FernetToken) (secret_key : Nat) (salt : Bytes)
    (max_age_in_seconds : Nat) (now : Nat) : Except DecodeErr Payload :=
  match fernetDecrypt secret_key max_age_in_seconds now token with
  | none => .error .invalidToken
  | some cleartext =>
    match splitFirstNul cleartext with
    | none => .error .valueError
    | some (token_salt, json_data) =>
      if token_salt ≠ salt then .error .invalidToken
      else
        match jsonLoads json_data with
        | none => .error .valueError
        | some d => .ok d

/-- `parse_fernet_timestamp(ciphertext)`: reads the epoch timestamp
embedded at bytes 1..9 of the base64-decoded token; `none` models the
`ValueError` raised when those bytes are missing.  The model keeps the
timestamp as epoch seconds rather than converting it to a datetime. -/
def parse_fernet_timestamp (tok : FernetToken) : Option Nat :=
  match tok.head ++ tok.mac with
  | _ :: t :: _ => some t
  | _ => none

/-- The Flask application configuration read through `current_app.config`
inside the two policy functions.  From the policies' viewpoint this is
ambient state: it is not one of their parameters. -/
structure AppConfig where
  SECRET_KEY : Nat
  RESET_PASSWORD_SALT : Bytes
  SHARED_EMAIL_KEY : Nat
  INVITE_EMAIL_SALT : Bytes

/-- Result of `decode_password_reset_token`: the decoded payload, the
`error: token_invalid` dict, or an exception escaping the function (its
try block catches only `InvalidToken`, so the `ValueError` and `KeyError`
families propagate to the caller). -/
inductive ResetResult where
  | payload (p : Payload)
  | tokenInvalid
  | uncaught
deriving DecidableEq

/-- `data_api_client.get_user(...)` followed by the
`user["users"]["passwordChangedAt"]` access and `strptime`: modelled as a
lookup returning the user's password-change time in epoch seconds, with
`none` when any step of that chain raises. -/
abbrev UserLookup := JVal → Option Nat

/-- `decode_password_reset_token(token, data_api_client)`.  Key and salt
come from `current_app.config`; the clock reading `now` is explicit. -/
def decode_password_reset_token (cfg : AppConfig) (token : FernetToken)
    (get_user : UserLookup) (now : Nat) : ResetResult :=
  match decode_token token cfg.SECRET_KEY cfg.RESET_PASSWORD_SALT
      ONE_DAY_IN_SECONDS now with
  | .error .invalidToken => .tokenInvalid
  | .error .valueError => .uncaught
  | .ok decoded =>
    match parse_fernet_timestamp token with
    | none => .uncaught
    | some timestamp =>
      match decoded.lookup "user" with
      | none => .uncaught
      | some uid =>
        match get_user uid with
        | none => .uncaught
        | some user_last_changed_password_at =>
          if timestamp < user_last_changed_password_at then .tokenInvalid
          else .payload decoded

/-- The role-dependent required fields of `decode_invitation_token`. -/
def required_fields (role : String) : List String :=
  if role = "supplier" then ["email_address", "supplier_code", "supplier_name"]
  else ["email_address"]

/-- `decode_invitation_token(encoded_token, role)`.  Key and salt come
from `current_app.config`; the blanket `except Exception` maps every
failure — decode errors and the explicitly raised `ValueError` for a
missing required field alike — to `None`. -/
def decode_invitation_token (cfg : AppConfig) (encoded_token : FernetToken)
    (role : String) (now : Nat) : Option Payload :=
  match decode_token encoded_token cfg.SHARED_EMAIL_KEY cfg.INVITE_EMAIL_SALT
      (7 * ONE_DAY_IN_SECONDS) now with
  | .error _ => none
  | .ok token =>
    if (required_fields role).all (fun field => (List.lookup field token).isSome) then
      some token
    else none

theorem hmac_inj {k k' : Nat} {d d' : Bytes} (h : hmac k d = hmac k' d') :
    k = k' ∧ d = d' := by
  simpa [hmac] using h

theorem splitFirstNul_append {a : Bytes} (b : Bytes) (ha : 0 ∉ a) :
    splitFirstNul (a ++ 0 :: b) = some (a, b) := by
  induction a with
  | nil => simp [splitFirstNul]
  | cons x xs ih =>
    have hx : x ≠ 0 := fun h => ha (by simp [h])
    have hxs : 0 ∉ xs := fun h => ha (by simp [h])
    simp [splitFirstNul, hx, ih hxs]

theorem splitFirstNul_eq_some {ct pre post : Bytes}
    (h : splitFirstNul ct = some (pre, post)) :
    ct = pre ++ 0 :: post ∧ 0 ∉ pre := by
  induction ct generalizing pre post with
  | nil => simp [splitFirstNul] at h
  | cons x xs ih =>
    simp only [splitFirstNul] at h
    by_cases hx : x = 0
    · rw [if_pos hx] at h
      obtain ⟨h1, h2⟩ := by simpa using h
      subst hx h1 h2
      simp
    · rw [if_neg hx] at h
      rcases Option.map_eq_some'.mp h with ⟨⟨p1, p2⟩, hsp, heq⟩
      obtain ⟨h1, h2⟩ := by simpa using heq
      rcases ih hsp with ⟨hct, hnul⟩
      subst h1 h2
      refine ⟨by simp [hct], ?_⟩
      simp only [List.mem_cons]
      rintro (hc | hc)
      · exact hx hc.symm
      · exact hnul hc

theorem fernetDecrypt_fernetEncrypt {key ttl now t : Nat} {iv pt : Bytes}
    (hiv : iv.length = 16) (h1 : ¬ t + ttl < now) (h2 : ¬ now + MAX_CLOCK_SKEW < t) :
    fernetDecrypt key ttl now (fernetEncrypt key t iv pt) = some pt := by
  simp only [fernetEncrypt, fernetDecrypt, if_neg h1, if_neg h2]
  rw [if_neg (by simp), if_neg (by simp)]
  rw [← hiv, List.drop_left]

theorem fernetDecrypt_ok_inv {key ttl now : Nat} {tok : FernetToken} {ct : Bytes}
    (h : fernetDecrypt key ttl now tok = some ct) :
    tok.mac = hmac key tok.head ∧
      ∃ t rest, tok.head = 128 :: t :: rest ∧ ¬ t + ttl < now ∧
        ¬ now + MAX_CLOCK_SKEW < t ∧ ct = rest.drop 16 := by
  match htok : tok.head, h with
  | v :: t :: rest, h =>
    rw [fernetDecrypt, htok] at h
    dsimp only at h
    by_cases hv : v ≠ 128
    · rw [if_pos hv] at h
      simp at h
    · rw [if_neg hv] at h
      push_neg at hv
      by_cases hexp : t + ttl < now
      · rw [if_pos hexp] at h
        simp at h
      · rw [if_neg hexp] at h
        by_cases hskew : now + MAX_CLOCK_SKEW < t
        · rw [if_pos hskew] at h
          simp at h
        · rw [if_neg hskew] at h
          by_cases hmc : tok.mac ≠ hmac key (v :: t :: rest)
          · rw [if_pos hmc] at h
            simp at h
          · rw [if_neg hmc] at h
            push_neg at hmc
            exact ⟨hmc, t, rest, by rw [hv], hexp, hskew, by simpa using h.symm⟩
  | [], h => rw [fernetDecrypt, htok] at h; simp at h
  | [v], h => rw [fernetDecrypt, htok] at h; simp at h

theorem decode_token_ok_inv {tok : FernetToken} {k ma now : Nat} {s : Bytes}
    {q : Payload} (h : decode_token tok k s ma now = .ok q) :
    ∃ ct pre post, fernetDecrypt k ma now tok = some ct ∧
      splitFirstNul ct = some (pre, post) ∧ pre = s ∧ jsonLoads post = some q := by
  match hd : fernetDecrypt k ma now tok, h with
  | some ct, h =>
    rw [decode_token, hd] at h
    dsimp only at h
    match hs : splitFirstNul ct, h with
    | some (pre, post), h =>
      dsimp only at h
      by_cases hps : pre ≠ s
      · rw [if_pos hps] at h
        simp at h
      · rw [if_neg hps] at h
        push_neg at hps
        match hj : jsonLoads post, h with
        | some d, h =>
          dsimp only at h
          simp only [Except.ok.injEq] at h
          exact ⟨ct, pre, post, rfl, hs, hps, by rw [hj, h]⟩
        | none, h => simp at h
    | none, h => simp at h
  | none, h => rw [decode_token, hd] at h; simp at h

/-- Core round trip at the codec level: decoding a generated token with
the same key and salt inside the validity window recovers the payload. -/
theorem decode_token_generate {p : Payload} {k t ma now : Nat} {s iv : Bytes}
    (hs : 0 ∉ s) (hiv : iv.length = 16)
    (h1 : ¬ t + ma < now) (h2 : ¬ now + MAX_CLOCK_SKEW < t) :
    decode_token (generate_token p k s t iv) k s ma now = .ok p := by
  rw [decode_token, generate_token, fernetDecrypt_fernetEncrypt hiv h1 h2]
  dsimp only
  rw [splitFirstNul_append (jsonDumps p) hs]
  dsimp only
  rw [if_neg (by simp), jsonLoads_jsonDumps]

/-- The timestamp embedded in a generated token is its generation time. -/
theorem parse_fernet_timestamp_generate (p : Payload) (k t : Nat) (s iv : Bytes) :
    parse_fernet_timestamp (generate_token p k s t iv) = some t := by
  rfl

theorem fernetDecrypt_expired {key key2 ttl now t : Nat} {iv pt : Bytes}
    (h : t + ttl < now) :
    fernetDecrypt key2 ttl now (fernetEncrypt key t iv pt) = none := by
  rw [fernetEncrypt, fernetDecrypt]
  dsimp only
  rw [if_neg (by simp), if_pos h]

theorem fernetDecrypt_skew {key key2 ttl now t : Nat} {iv pt : Bytes}
    (h : now + MAX_CLOCK_SKEW < t) :
    fernetDecrypt key2 ttl now (fernetEncrypt key t iv pt) = none := by
  rw [fernetEncrypt, fernetDecrypt]
  dsimp only
  rw [if_neg (by simp)]
  by_cases hexp : t + ttl < now
  · rw [if_pos hexp]
  · rw [if_neg hexp, if_pos h]

theorem fernetDecrypt_wrong_key {key key2 ttl now t : Nat} {iv pt : Bytes}
    (h : key2 ≠ key) :
    fernetDecrypt key2 ttl now (fernetEncrypt key t iv pt) = none := by
  rw [fernetEncrypt, fernetDecrypt]
  dsimp only
  rw [if_neg (by simp)]
  by_cases hexp : t + ttl < now
  · rw [if_pos hexp]
  · rw [if_neg hexp]
    by_cases hsk : now + MAX_CLOCK_SKEW < t
    · rw [if_pos hsk]
    · rw [if_neg hsk, if_pos (by simp only [hmac, ne_eq, List.cons.injEq]; omega)]

/-- An expired generated token is rejected as `InvalidToken` regardless of
the key and salt offered at decode time. -/
theorem decode_token_expired {p : Payload} {k k2 t ma now : Nat} {s s2 iv : Bytes}
    (h : t + ma < now) :
    decode_token (generate_token p k s t iv) k2 s2 ma now = .error .invalidToken := by
  rw [decode_token, generate_token, fernetDecrypt_expired h]

/-- Decoding a generated token with the right key but a different salt
fails with `InvalidToken` (for the NUL-free salts of the code), whatever
the clock says. -/
theorem decode_token_wrong_salt {p : Payload} {k t ma now : Nat} {s s2 iv : Bytes}
    (hsalt : 0 ∉ s) (hs2 : s2 ≠ s) (hiv : iv.length = 16) :
    decode_token (generate_token p k s t iv) k s2 ma now = .error .invalidToken := by
  rw [decode_token, generate_token]
  by_cases hexp : t + ma < now
  · rw [fernetDecrypt_expired hexp]
  · by_cases hsk : now + MAX_CLOCK_SKEW < t
    · rw [fernetDecrypt_skew hsk]
    · rw [fernetDecrypt_fernetEncrypt hiv hexp hsk]
      dsimp only
      rw [splitFirstNul_append (jsonDumps p) hsalt]
      dsimp only
      rw [if_pos (Ne.symm hs2)]

/-- Decoding a generated token with any other key fails with
`InvalidToken`, whatever the salt and the clock. -/
theorem decode_token_wrong_key {p : Payload} {k k2 t ma now : Nat} {s s2 iv : Bytes}
    (hk2 : k2 ≠ k) :
    decode_token (generate_token p k s t iv) k2 s2 ma now = .error .invalidToken := by
  rw [decode_token, generate_token, fernetDecrypt_wrong_key hk2]

theorem set_getD_ne {l : List Nat} {i v : Nat} (hi : i < l.length)
    (hv : v ≠ l.getD i 0) : l.set i v ≠ l := by
  intro he
  apply hv
  have h1 := List.getElem?_set_self (l := l) (a := v) hi
  rw [he] at h1
  rw [List.getD_eq_getElem?_getD, h1]
  rfl

/-- Altering any single byte of the MAC-covered part of a generated token
makes decryption fail. -/
theorem fernetDecrypt_flipped_head {p : Payload} {k k2 t ttl now i v : Nat}
    {s iv : Bytes} (hi : i < (generate_token p k s t iv).head.length)
    (hv : v ≠ (generate_token p k s t iv).head.getD i 0) :
    fernetDecrypt k2 ttl now
      ⟨(generate_token p k s t iv).head.set i v, (generate_token p k s t iv).mac⟩
      = none := by
  cases hopt : fernetDecrypt k2 ttl now
      ⟨(generate_token p k s t iv).head.set i v, (generate_token p k s t iv).mac⟩ with
  | none => rfl
  | some ct =>
    exfalso
    rcases fernetDecrypt_ok_inv hopt with ⟨hmc, -⟩
    dsimp only at hmc
    have hm0 : (generate_token p k s t iv).mac
        = hmac k (generate_token p k s t iv).head := rfl
    rw [hm0] at hmc
    rcases hmac_inj hmc with ⟨-, hheads⟩
    exact set_getD_ne hi hv hheads.symm

/-- Altering any single byte of the MAC tag of a generated token makes
decryption under the original key fail. -/
theorem fernetDecrypt_flipped_mac {p : Payload} {k t ttl now i v : Nat}
    {s iv : Bytes} (hi : i < (generate_token p k s t iv).mac.length)
    (hv : v ≠ (generate_token p k s t iv).mac.getD i 0) :
    fernetDecrypt k ttl now
      ⟨(generate_token p k s t iv).head, (generate_token p k s t iv).mac.set i v⟩
      = none := by
  cases hopt : fernetDecrypt k ttl now
      ⟨(generate_token p k s t iv).head, (generate_token p k s t iv).mac.set i v⟩ with
  | none => rfl
  | some ct =>
    exfalso
    rcases fernetDecrypt_ok_inv hopt with ⟨hmc, -⟩
    dsimp only at hmc
    have hmac2 : (generate_token p k s t iv).mac
        = hmac k (generate_token p k s t iv).head := rfl
    rw [← hmac2] at hmc
    exact set_getD_ne hi hv hmc

/-- A concrete password-reset payload used to instantiate theorems. -/
def pay0 : Payload := [("user", JVal.str "u-42")]

/-- A concrete supplier invitation payload used to instantiate theorems. -/
def payInvite : Payload :=
  [("email_address", JVal.str "a@b.c"),
   ("supplier_code", JVal.int 1234),
   ("supplier_name", JVal.str "S")]

/-- A concrete 16-byte IV used to instantiate theorems. -/
def iv0 : Bytes := List.replicate 16 9

/-- A concrete NUL-free salt used to instantiate theorems. -/
def salt0 : Bytes := [80, 83]

/-- Claim C3: for all payloads P, secrets K, salts S and max_age ≥ 0,
decoding `generate(P, K, S)` with the same K, S and max_age returns
exactly P, and the token's embedded issuance timestamp `issued_at` equals
the generation time, provided the elapsed time between generation and
decode is at most max_age.  (Salts are the NUL-free printable strings of
the data model; the 16-byte IV drawn inside Fernet is explicit.) -/
theorem C3_round_trip (p : Payload) (k t max_age now : Nat) (s iv : Bytes)
    (hsalt : 0 ∉ s) (hiv : iv.length = 16)
    (hgen : t ≤ now) (helapsed : now - t ≤ max_age) :
    decode_token (generate_token p k s t iv) k s max_age now = .ok p ∧
    parse_fernet_timestamp (generate_token p k s t iv) = some t := by
  refine ⟨decode_token_generate hsalt hiv (by omega) (by omega), ?_⟩
  exact parse_fernet_timestamp_generate p k t s iv

theorem C3_round_trip_witness :
    decode_token (generate_token pay0 7 salt0 1000 iv0) 7 salt0 86400 2000
      = .ok pay0 ∧
    parse_fernet_timestamp (generate_token pay0 7 salt0 1000 iv0) = some 1000 :=
  C3_round_trip pay0 7 1000 86400 2000 salt0 iv0 (by decide) (by decide)
    (by decide) (by decide)

/-- Claim C2 counterexample: two tokens carrying the same payload but
issued at different times (1000 and 2000) decode, each within its
validity window, to literally identical successful results.  A successful
`decode_token` result therefore carries no issuance timestamp at all —
the function returns the deserialized payload alone, not the claimed pair
of payload and `issued_at`. -/
theorem C2_counterexample :
    decode_token (generate_token pay0 7 salt0 1000 iv0) 7 salt0 86400 2500
      = decode_token (generate_token pay0 7 salt0 2000 iv0) 7 salt0 86400 2500 ∧
    decode_token (generate_token pay0 7 salt0 1000 iv0) 7 salt0 86400 2500
      = .ok pay0 ∧
    (1000 : Nat) ≠ 2000 :=
  ⟨rfl, rfl, by decide⟩

/-- Claim C2 (amended): a successful `decode_token` returns the
deserialized payload only; the result is independent of the issuance
timestamp, which is not part of it and is recovered separately from the
raw token by `parse_fernet_timestamp`. -/
theorem C2_payload_only (p : Payload) (k t max_age now : Nat) (s iv : Bytes)
    (hsalt : 0 ∉ s) (hiv : iv.length = 16)
    (hgen : t ≤ now) (helapsed : now - t ≤ max_age) :
    decode_token (generate_token p k s t iv) k s max_age now = .ok p ∧
    (∀ t2 now2, t2 ≤ now2 → now2 - t2 ≤ max_age →
        decode_token (generate_token p k s t2 iv) k s max_age now2
          = decode_token (generate_token p k s t iv) k s max_age now) ∧
    parse_fernet_timestamp (generate_token p k s t iv) = some t := by
  refine ⟨decode_token_generate hsalt hiv (by omega) (by omega), ?_, rfl⟩
  intro t2 now2 h1 h2
  rw [decode_token_generate hsalt hiv (by omega) (by omega),
    decode_token_generate hsalt hiv (by omega) (by omega)]

theorem C2_payload_only_witness :
    decode_token (generate_token pay0 7 salt0 1000 iv0) 7 salt0 86400 2000
      = .ok pay0 ∧
    parse_fernet_timestamp (generate_token pay0 7 salt0 1000 iv0) = some 1000 :=
  ⟨(C2_payload_only pay0 7 1000 86400 2000 salt0 iv0 (by decide) (by decide)
      (by decide) (by decide)).1,
   (C2_payload_only pay0 7 1000 86400 2000 salt0 iv0 (by decide) (by decide)
      (by decide) (by decide)).2.2⟩

/-- Claim C8 counterexample: an authentic token decoded one second after
`issued_at + max_age` fails with exactly the same `InvalidToken` outcome
that a token forged under a wrong key produces inside the validity
window.  The code therefore does not fail "with `Expired`": it raises the
single undifferentiated `InvalidToken` for expiry and for authentication
failure alike (and the ttl check even runs before signature
verification). -/
theorem C8_counterexample :
    decode_token (generate_token pay0 7 salt0 1000 iv0) 7 salt0 3600 4601
      = .error .invalidToken ∧
    decode_token (generate_token pay0 8 salt0 1000 iv0) 7 salt0 3600 1000
      = .error .invalidToken :=
  ⟨rfl, rfl⟩

/-- Claim C8 (amended): a token decoded at exactly `issued_at + max_age`
is still valid; at any later moment decoding fails, with the codec's
single `InvalidToken` failure rather than a distinct `Expired` kind. -/
theorem C8_expiry_boundary (p : Payload) (k t max_age : Nat) (s iv : Bytes)
    (hsalt : 0 ∉ s) (hiv : iv.length = 16) :
    decode_token (generate_token p k s t iv) k s max_age (t + max_age)
      = .ok p ∧
    ∀ now, t + max_age < now →
      decode_token (generate_token p k s t iv) k s max_age now
        = .error .invalidToken := by
  refine ⟨decode_token_generate hsalt hiv (by omega) (by omega), ?_⟩
  intro now hnow
  exact decode_token_expired hnow

theorem C8_expiry_boundary_witness :
    decode_token (generate_token pay0 7 salt0 1000 iv0) 7 salt0 3600 4600
      = .ok pay0 ∧
    decode_token (generate_token pay0 7 salt0 1000 iv0) 7 salt0 3600 4601
      = .error .invalidToken :=
  ⟨(C8_expiry_boundary pay0 7 1000 3600 salt0 iv0 (by decide) (by decide)).1,
   (C8_expiry_boundary pay0 7 1000 3600 salt0 iv0 (by decide) (by decide)).2
      4601 (by decide)⟩

/-- Claim C4: a token generated with secret K and salt S decodes
successfully only with exactly K and S on the unaltered token: decoding
with any other key, with any other salt, or after altering any single
byte of the token (whether in the MAC-covered bytes or in the MAC tag)
never yields a successfully decoded payload. -/
theorem C4_tamper_sensitivity (p : Payload) (k t max_age now : Nat) (s iv : Bytes)
    (hsalt : 0 ∉ s) (hiv : iv.length = 16) :
    (∀ k2 s2 q, k2 ≠ k →
        decode_token (generate_token p k s t iv) k2 s2 max_age now ≠ .ok q) ∧
    (∀ s2 q, s2 ≠ s →
        decode_token (generate_token p k s t iv) k s2 max_age now ≠ .ok q) ∧
    (∀ i v q, i < (generate_token p k s t iv).head.length →
        v ≠ (generate_token p k s t iv).head.getD i 0 →
        decode_token ⟨(generate_token p k s t iv).head.set i v,
          (generate_token p k s t iv).mac⟩ k s max_age now ≠ .ok q) ∧
    (∀ i v q, i < (generate_token p k s t iv).mac.length →
        v ≠ (generate_token p k s t iv).mac.getD i 0 →
        decode_token ⟨(generate_token p k s t iv).head,
          (generate_token p k s t iv).mac.set i v⟩ k s max_age now ≠ .ok q) := by
  refine ⟨?_, ?_, ?_, ?_⟩
  · intro k2 s2 q hk2
    rw [decode_token_wrong_key hk2]
    simp
  · intro s2 q hs2
    rw [decode_token_wrong_salt hsalt hs2 hiv]
    simp
  · intro i v q hi hv
    rw [decode_token, fernetDecrypt_flipped_head hi hv]
    simp
  · intro i v q hi hv
    rw [decode_token, fernetDecrypt_flipped_mac hi hv]
    simp

theorem C4_tamper_sensitivity_witness :
    decode_token (generate_token pay0 7 salt0 1000 iv0) 8 salt0 86400 1500
      ≠ .ok pay0 ∧
    decode_token (generate_token pay0 7 salt0 1000 iv0) 7 [81] 86400 1500
      ≠ .ok pay0 ∧
    decode_token ⟨(generate_token pay0 7 salt0 1000 iv0).head.set 0 55,
      (generate_token pay0 7 salt0 1000 iv0).mac⟩ 7 salt0 86400 1500
      ≠ .ok pay0 ∧
    decode_token ⟨(generate_token pay0 7 salt0 1000 iv0).head,
      (generate_token pay0 7 salt0 1000 iv0).mac.set 0 55⟩ 7 salt0 86400 1500
      ≠ .ok pay0 :=
  ⟨(C4_tamper_sensitivity pay0 7 1000 86400 1500 salt0 iv0 (by decide)
      (by decide)).1 8 salt0 pay0 (by decide),
   (C4_tamper_sensitivity pay0 7 1000 86400 1500 salt0 iv0 (by decide)
      (by decide)).2.1 [81] pay0 (by decide),
   (C4_tamper_sensitivity pay0 7 1000 86400 1500 salt0 iv0 (by decide)
      (by decide)).2.2.1 0 55 pay0 (by decide) (by decide),
   (C4_tamper_sensitivity pay0 7 1000 86400 1500 salt0 iv0 (by decide)
      (by decide)).2.2.2 0 55 pay0 (by decide) (by decide)⟩

/-- Claim C7: decoding a token generated with (K, S) using key K and a
different salt fails with the very same failure kind — the codec's single
`InvalidToken` — as decoding it with a wrong key, so the decode result
does not reveal whether the salt or the key was wrong. -/
theorem C7_salt_key_indistinguishable (p : Payload) (k k2 t max_age now : Nat)
    (s s2 iv : Bytes) (hsalt : 0 ∉ s) (hs2 : s2 ≠ s) (hk2 : k2 ≠ k)
    (hiv : iv.length = 16) :
    decode_token (generate_token p k s t iv) k s2 max_age now
      = .error .invalidToken ∧
    decode_token (generate_token p k s t iv) k2 s max_age now
      = .error .invalidToken :=
  ⟨decode_token_wrong_salt hsalt hs2 hiv, decode_token_wrong_key hk2⟩

theorem C7_salt_key_indistinguishable_witness :
    decode_token (generate_token pay0 7 salt0 1000 iv0) 7 [81] 86400 1500
      = .error .invalidToken ∧
    decode_token (generate_token pay0 7 salt0 1000 iv0) 8 salt0 86400 1500
      = .error .invalidToken :=
  C7_salt_key_indistinguishable pay0 7 8 1000 86400 1500 salt0 [81] iv0
    (by decide) (by decide) (by decide) (by decide)

theorem splitFirstNul_of_mem {a : Bytes} (b : Bytes) (ha : 0 ∈ a) :
    ∃ pre post, splitFirstNul (a ++ b) = some (pre, post) ∧
      pre.length < a.length ∧ 0 ∉ pre := by
  induction a with
  | nil => simp at ha
  | cons x xs ih =>
    by_cases hx : x = 0
    · subst hx
      exact ⟨[], xs ++ b, by simp [splitFirstNul], by simp, by simp⟩
    · have hxs : 0 ∈ xs := by
        rcases List.mem_cons.mp ha with h | h
        · exact absurd h.symm hx
        · exact h
      rcases ih hxs with ⟨pre, post, hsp, hlen, hnul⟩
      refine ⟨x :: pre, post, ?_, by simpa using hlen, ?_⟩
      · simp only [List.cons_append, splitFirstNul, if_neg hx]
        rw [List.append_eq, hsp]
        rfl
      · simp only [List.mem_cons]
        rintro (h | h)
        · exact hx h.symm
        · exact hnul h

/-- Claim C10: for every salt containing a NUL byte, decoding a token
generated with that very salt (and the right key) is rejected with
`InvalidToken` instead of returning the payload: `decode_token` recovers
the embedded salt by splitting the decrypted cleartext at its first NUL
byte, so a NUL-containing salt never compares equal to its own embedded
prefix, and the round trip holds only for NUL-free salts. -/
theorem C10_nul_salt_rejected (p : Payload) (k t max_age now : Nat) (s iv : Bytes)
    (hsalt : 0 ∈ s) (hiv : iv.length = 16) :
    decode_token (generate_token p k s t iv) k s max_age now
      = .error .invalidToken := by
  rw [decode_token, generate_token]
  by_cases hexp : t + max_age < now
  · rw [fernetDecrypt_expired hexp]
  · by_cases hsk : now + MAX_CLOCK_SKEW < t
    · rw [fernetDecrypt_skew hsk]
    · rw [fernetDecrypt_fernetEncrypt hiv hexp hsk]
      dsimp only
      rcases splitFirstNul_of_mem (0 :: jsonDumps p) hsalt with
        ⟨pre, post, hsp, hlen, -⟩
      rw [hsp]
      dsimp only
      rw [if_pos (by intro he; rw [he] at hlen; omega)]

theorem C10_nul_salt_rejected_witness :
    decode_token (generate_token pay0 7 [80, 0] 1000 iv0) 7 [80, 0] 86400 1500
      = .error .invalidToken :=
  C10_nul_salt_rejected pay0 7 1000 86400 1500 [80, 0] iv0 (by decide)
    (by decide)

/-- A concrete application configuration used to instantiate theorems. -/
def cfg0 : AppConfig := ⟨7, salt0, 11, [73]⟩

/-- A concrete user lookup: every user's password was last changed at
epoch second 500. -/
def lookup0 : UserLookup := fun _ => some 500

/-- A concrete user lookup: every user's password was last changed at
epoch second 2000. -/
def lookupLate : UserLookup := fun _ => some 2000

/-- A concrete invitation payload missing the supplier_code field. -/
def payNoCode : Payload :=
  [("email_address", JVal.str "a@b.c"), ("supplier_name", JVal.str "S")]

/-- Claim C1 counterexample: an authentic password-reset token redeemed
one second past the 24-hour window produces exactly the same
`token_invalid` outcome as a forged token (generated under key 8, decoded
under the configured key 7).  There is no `token_expired` outcome: Fernet
raises the same `InvalidToken` for expiry as for authentication failure,
and `decode_password_reset_token` maps it to the `token_invalid` error
dict — as the repository's own tests assert. -/
theorem C1_counterexample :
    decode_password_reset_token cfg0 (generate_token pay0 7 salt0 1000 iv0)
      lookup0 87401 = .tokenInvalid ∧
    decode_password_reset_token cfg0 (generate_token pay0 8 salt0 1000 iv0)
      lookup0 1500 = .tokenInvalid :=
  ⟨rfl, rfl⟩

/-- Claim C1 (amended): an authentic password-reset token whose age
exceeds the 24-hour window at redemption time is rejected by
`decode_password_reset_token` with the outcome `token_invalid` — the very
same outcome used for forged or malformed tokens, not a distinct
`token_expired` outcome. -/
theorem C1_expired_is_token_invalid (cfg : AppConfig) (p : Payload)
    (t now : Nat) (iv : Bytes) (get_user : UserLookup)
    (hexp : t + ONE_DAY_IN_SECONDS < now) :
    decode_password_reset_token cfg
      (generate_token p cfg.SECRET_KEY cfg.RESET_PASSWORD_SALT t iv)
      get_user now = .tokenInvalid ∧
    (∀ k2, k2 ≠ cfg.SECRET_KEY →
      decode_password_reset_token cfg
        (generate_token p k2 cfg.RESET_PASSWORD_SALT t iv) get_user now
        = .tokenInvalid) := by
  constructor
  · rw [decode_password_reset_token, decode_token_expired hexp]
  · intro k2 hk2
    rw [decode_password_reset_token, decode_token_wrong_key (Ne.symm hk2)]

theorem C1_expired_is_token_invalid_witness :
    decode_password_reset_token cfg0 (generate_token pay0 7 salt0 1000 iv0)
      lookup0 87401 = .tokenInvalid ∧
    decode_password_reset_token cfg0 (generate_token pay0 8 salt0 1000 iv0)
      lookup0 87401 = .tokenInvalid :=
  ⟨(C1_expired_is_token_invalid cfg0 pay0 1000 87401 iv0 lookup0 (by decide)).1,
   (C1_expired_is_token_invalid cfg0 pay0 1000 87401 iv0 lookup0 (by decide)).2
      8 (by decide)⟩

/-- Claim C5: for an authentic, unexpired password-reset token issued at
T1 for a user whose password_changed_at is T2, redemption returns
`token_invalid` when T1 < T2 (the token predates the password change) and
the token's payload when T2 ≤ T1. -/
theorem C5_password_change_invalidation (cfg : AppConfig) (p : Payload)
    (uid : JVal) (t1 t2 now : Nat) (iv : Bytes) (get_user : UserLookup)
    (hsalt : 0 ∉ cfg.RESET_PASSWORD_SALT) (hiv : iv.length = 16)
    (hgen : t1 ≤ now) (hfresh : now ≤ t1 + ONE_DAY_IN_SECONDS)
    (huser : List.lookup "user" p = some uid)
    (hchanged : get_user uid = some t2) :
    decode_password_reset_token cfg
      (generate_token p cfg.SECRET_KEY cfg.RESET_PASSWORD_SALT t1 iv)
      get_user now
      = (if t1 < t2 then .tokenInvalid else .payload p) := by
  rw [decode_password_reset_token,
    decode_token_generate hsalt hiv (by omega) (by omega)]
  dsimp only
  rw [parse_fernet_timestamp_generate]
  dsimp only
  rw [huser]
  dsimp only
  rw [hchanged]

theorem C5_password_change_invalidation_witness :
    decode_password_reset_token cfg0 (generate_token pay0 7 salt0 1000 iv0)
      lookup0 2000 = .payload pay0 ∧
    decode_password_reset_token cfg0 (generate_token pay0 7 salt0 1000 iv0)
      lookupLate 2000 = .tokenInvalid :=
  ⟨C5_password_change_invalidation cfg0 pay0 (JVal.str "u-42") 1000 500 2000
      iv0 lookup0 (by decide) (by decide) (by decide) (by decide) (by decide)
      (by decide),
   C5_password_change_invalidation cfg0 pay0 (JVal.str "u-42") 1000 2000 2000
      iv0 lookupLate (by decide) (by decide) (by decide) (by decide)
      (by decide) (by decide)⟩

/-- Claim C6: `decode_invitation_token` returns the decoded payload
exactly when the token decodes successfully within the 7-day window and
the payload contains every field required for the role (`email_address`,
`supplier_code` and `supplier_name` when the role is "supplier";
`email_address` otherwise); in every other case — malformed token,
authentication failure, expiry, or a missing required field — it returns
the single undifferentiated `None`. -/
theorem C6_invitation_redemption (cfg : AppConfig) (role : String) (now : Nat) :
    (∀ tok q, decode_invitation_token cfg tok role now = some q ↔
        decode_token tok cfg.SHARED_EMAIL_KEY cfg.INVITE_EMAIL_SALT
          (7 * ONE_DAY_IN_SECONDS) now = .ok q ∧
        (required_fields role).all (fun f => (List.lookup f q).isSome) = true) ∧
    (∀ p t iv, 0 ∉ cfg.INVITE_EMAIL_SALT → iv.length = 16 → t ≤ now →
        now ≤ t + 7 * ONE_DAY_IN_SECONDS →
        decode_invitation_token cfg
          (generate_token p cfg.SHARED_EMAIL_KEY cfg.INVITE_EMAIL_SALT t iv)
          role now
          = (if (required_fields role).all (fun f => (List.lookup f p).isSome)
            then some p else none)) ∧
    (∀ tok e, decode_token tok cfg.SHARED_EMAIL_KEY cfg.INVITE_EMAIL_SALT
          (7 * ONE_DAY_IN_SECONDS) now = .error e →
        decode_invitation_token cfg tok role now = none) := by
  refine ⟨?_, ?_, ?_⟩
  · intro tok q
    rw [decode_invitation_token]
    cases hd : decode_token tok cfg.SHARED_EMAIL_KEY cfg.INVITE_EMAIL_SALT
        (7 * ONE_DAY_IN_SECONDS) now with
    | error e =>
      dsimp only
      simp
    | ok d =>
      dsimp only
      by_cases hall : (required_fields role).all (fun f => (List.lookup f d).isSome)
      · rw [if_pos hall]
        constructor
        · intro h
          obtain rfl : d = q := by simpa using h
          exact ⟨rfl, hall⟩
        · rintro ⟨h1, -⟩
          obtain rfl : d = q := by simpa using h1
          rfl
      · rw [if_neg hall]
        constructor
        · intro h
          simp at h
        · rintro ⟨h1, h2⟩
          obtain rfl : d = q := by simpa using h1
          exact absurd h2 hall
  · intro p t iv hsalt hiv h1 h2
    rw [decode_invitation_token,
      decode_token_generate hsalt hiv (by omega) (by omega)]
  · intro tok e he
    rw [decode_invitation_token, he]

theorem C6_invitation_redemption_witness :
    decode_invitation_token cfg0 (generate_token payInvite 11 [73] 1000 iv0)
      "supplier" 2000 = some payInvite ∧
    decode_invitation_token cfg0 (generate_token payNoCode 11 [73] 1000 iv0)
      "supplier" 2000 = none ∧
    decode_invitation_token cfg0 (generate_token payNoCode 11 [73] 1000 iv0)
      "buyer" 2000 = some payNoCode ∧
    decode_invitation_token cfg0 (generate_token payInvite 12 [73] 1000 iv0)
      "supplier" 2000 = none :=
  ⟨(C6_invitation_redemption cfg0 "supplier" 2000).2.1 payInvite 1000 iv0
      (by decide) (by decide) (by decide) (by decide),
   (C6_invitation_redemption cfg0 "supplier" 2000).2.1 payNoCode 1000 iv0
      (by decide) (by decide) (by decide) (by decide),
   (C6_invitation_redemption cfg0 "buyer" 2000).2.1 payNoCode 1000 iv0
      (by decide) (by decide) (by decide) (by decide),
   (C6_invitation_redemption cfg0 "supplier" 2000).2.2 _ DecodeErr.invalidToken
      rfl⟩

/-- Claim C9 counterexample: two calls of `decode_password_reset_token`
with identical explicit inputs (token, user lookup, clock reading) but
different ambient application configurations produce different results:
the policy reads `SECRET_KEY` and `RESET_PASSWORD_SALT` from
`current_app.config` inside the function rather than taking them as
parameters, so it is not a pure function of its explicit inputs. -/
theorem C9_counterexample :
    decode_password_reset_token cfg0 (generate_token pay0 7 salt0 1000 iv0)
      lookup0 2000 = .payload pay0 ∧
    decode_password_reset_token ⟨7, [81], 11, [73]⟩
      (generate_token pay0 7 salt0 1000 iv0) lookup0 2000 = .tokenInvalid :=
  ⟨rfl, rfl⟩

/-- Claim C9 (amended): every operation is deterministic in its explicit
parameters plus — for the two policy wrappers only — the key and salt
they read from the ambient application configuration: the policies depend
on that configuration only through `SECRET_KEY`/`RESET_PASSWORD_SALT`
(password reset) and `SHARED_EMAIL_KEY`/`INVITE_EMAIL_SALT` (invitation),
while the codec functions `generate_token`/`decode_token` take key and
salt exclusively as parameters. -/
theorem C9_config_dependence (cfg cfg2 : AppConfig) (tok : FernetToken)
    (get_user : UserLookup) (role : String) (now : Nat) :
    (cfg.SECRET_KEY = cfg2.SECRET_KEY →
      cfg.RESET_PASSWORD_SALT = cfg2.RESET_PASSWORD_SALT →
      decode_password_reset_token cfg tok get_user now
        = decode_password_reset_token cfg2 tok get_user now) ∧
    (cfg.SHARED_EMAIL_KEY = cfg2.SHARED_EMAIL_KEY →
      cfg.INVITE_EMAIL_SALT = cfg2.INVITE_EMAIL_SALT →
      decode_invitation_token cfg tok role now
        = decode_invitation_token cfg2 tok role now) := by
  constructor
  · intro h1 h2
    rw [decode_password_reset_token, decode_password_reset_token, h1, h2]
  · intro h1 h2
    rw [decode_invitation_token, decode_invitation_token, h1, h2]

theorem C9_config_dependence_witness :
    decode_password_reset_token ⟨7, salt0, 11, [73]⟩
      (generate_token pay0 7 salt0 1000 iv0) lookup0 2000
      = decode_password_reset_token ⟨7, salt0, 12, [74]⟩
        (generate_token pay0 7 salt0 1000 iv0) lookup0 2000 :=
  (C9_config_dependence ⟨7, salt0, 11, [73]⟩ ⟨7, salt0, 12, [74]⟩
      (generate_token pay0 7 salt0 1000 iv0) lookup0 "supplier" 2000).1
    rfl rfl

end DMUtils
